import Mathlib

/-!
Verification development for the FolioFox automation scripts.

Each definition in this file is a shallow embedding of a function of the
Python sources under scripts/automation (duplicate_detector.py,
retry_manager.py, advanced_queue_manager.py, failover_manager.py,
database_optimizer.py).  Python strings are modelled as Lean strings;
Python floats as rationals; timestamps as rationals (seconds); machine
side effects (database writes, file removal) as record fields of explicit
result values.  Library calls from the Python standard library
(str.lower, str.upper, the regex character classes, unicodedata.normalize,
difflib.SequenceMatcher.ratio) are modelled on their ASCII fragment, which
is the fragment every comparison in this codebase exercises; the difflib
ratio is kept abstract as a function parameter.
-/

/-- Table of the 26 ASCII case pairs (uppercase, lowercase); this is the
fragment of the Unicode case tables that Python str.lower / str.upper use
on ASCII input. -/
def asciiCasePairs : List (Char × Char) :=
  [('A', 'a'), ('B', 'b'), ('C', 'c'), ('D', 'd'), ('E', 'e'), ('F', 'f'),
   ('G', 'g'), ('H', 'h'), ('I', 'i'), ('J', 'j'), ('K', 'k'), ('L', 'l'),
   ('M', 'm'), ('N', 'n'), ('O', 'o'), ('P', 'p'), ('Q', 'q'), ('R', 'r'),
   ('S', 's'), ('T', 't'), ('U', 'u'), ('V', 'v'), ('W', 'w'), ('X', 'x'),
   ('Y', 'y'), ('Z', 'z')]

/-- Model of Python str.lower on one character (ASCII fragment):
uppercase ASCII letters map to their lowercase pair, everything else is
unchanged. -/
def pyToLower (c : Char) : Char :=
  match asciiCasePairs.find? (fun p => p.1 = c) with
  | some p => p.2
  | none => c

/-- Model of Python str.upper on one character (ASCII fragment):
lowercase ASCII letters map to their uppercase pair, everything else is
unchanged. -/
def pyToUpper (c : Char) : Char :=
  match asciiCasePairs.find? (fun p => p.2 = c) with
  | some p => p.1
  | none => c

/-- Model of the Python regex class \s (ASCII fragment): space, tab,
newline, vertical tab, form feed, carriage return.  Python str.strip()
with no argument strips the same class. -/
def pyIsSpace (c : Char) : Bool :=
  c = ' ' || c = '\t' || c = '\n' || c = '\x0b' || c = '\x0c' || c = '\r'

/-- Model of the Python regex class \w (ASCII fragment): ASCII letters,
digits, and the underscore. -/
def pyIsWordChar (c : Char) : Bool :=
  c.isAlphanum || c = '_'

/-- Decides whether the first list is a prefix of the second; models
Python str.startswith on the character lists of the two strings. -/
def isPrefixList : List Char → List Char → Bool
  | [], _ => true
  | _ :: _, [] => false
  | a :: as, b :: bs => a = b && isPrefixList as bs

/-- Decides whether the first list occurs as a contiguous run inside the
second; models the Python expression needle in haystack on strings. -/
def containsSub (needle : List Char) : List Char → Bool
  | [] => isPrefixList needle []
  | c :: rest => isPrefixList needle (c :: rest) || containsSub needle rest

/-- Helper for whitespace collapsing: the Boolean argument records
whether the previous character was whitespace.  Together with collapseWs
this models re.sub applied with the pattern of one-or-more \s and the
replacement of a single space. -/
def collapseAux : Bool → List Char → List Char
  | _, [] => []
  | b, c :: rest =>
    if pyIsSpace c then
      (if b then collapseAux true rest else ' ' :: collapseAux true rest)
    else c :: collapseAux false rest

/-- Model of re.sub replacing every maximal whitespace run with a single
space character. -/
def collapseWs (l : List Char) : List Char := collapseAux false l

/-- Drops trailing whitespace characters; auxiliary of pyStrip. -/
def dropTrailingWs : List Char → List Char
  | [] => []
  | c :: rest =>
    let r := dropTrailingWs rest
    if r = [] && pyIsSpace c then [] else c :: r

/-- Model of Python str.strip(): removes leading and trailing whitespace
characters. -/
def pyStrip (l : List Char) : List Char :=
  dropTrailingWs (l.dropWhile pyIsSpace)

/-- Model of unicodedata.normalize applied with the NFKD form.  NFKD is
the identity on ASCII strings, and every comparison in the duplicate
detector happens after ASCII-level normalisation, so the model is the
identity function. -/
def nfkd (s : String) : String := s

/-- The leading articles removed by DuplicateDetector._normalize_title,
in source order, each with its trailing space. -/
def articlesList : List (List Char) :=
  [String.data "the ", String.data "a ", String.data "an ", String.data "le ",
   String.data "la ", String.data "les ", String.data "un ", String.data "une "]

/-- Removes the first matching leading article, if any; models the
for-loop with break over the articles in _normalize_title. -/
def stripLeadingArticle (l : List Char) : List Char :=
  match articlesList.find? (fun a => isPrefixList a l) with
  | some a => l.drop a.length
  | none => l

/-- Removes the suffix starting at the leftmost position where the given
matcher succeeds; models re.sub with an end-anchored pattern and the
empty replacement (such a pattern has at most one match). -/
def stripPatAux (f : List Char → Bool) : List Char → List Char
  | [] => []
  | c :: rest => if f (c :: rest) then [] else c :: stripPatAux f rest

/-- Matcher for the end-anchored edition pattern made of optional blanks,
digits, an optional ordinal suffix, optional blanks, the word edition and
optional blanks; models the first entry of edition_patterns. -/
def matchNumEdition (l : List Char) : Bool :=
  let l1 := l.dropWhile pyIsSpace
  let digits := l1.takeWhile Char.isDigit
  if digits = [] then false
  else
    let l2 := l1.dropWhile Char.isDigit
    let l3 :=
      if isPrefixList (String.data "st") l2 || isPrefixList (String.data "nd") l2 ||
         isPrefixList (String.data "rd") l2 || isPrefixList (String.data "th") l2
      then l2.drop 2 else l2
    let l4 := l3.dropWhile pyIsSpace
    if isPrefixList (String.data "edition") l4
    then decide ((l4.drop 7).dropWhile pyIsSpace = [])
    else false

/-- Matcher for an end-anchored pattern made of optional blanks, a fixed
word, optional blanks, the word edition and optional blanks; models the
revised, updated and expanded entries of edition_patterns. -/
def matchWordEdition (w : List Char) (l : List Char) : Bool :=
  let l1 := l.dropWhile pyIsSpace
  if isPrefixList w l1 then
    let l2 := (l1.drop w.length).dropWhile pyIsSpace
    if isPrefixList (String.data "edition") l2
    then decide ((l2.drop 7).dropWhile pyIsSpace = [])
    else false
  else false

/-- Applies the four edition-marker substitutions of _normalize_title in
source order. -/
def stripEditionMarkers (l : List Char) : List Char :=
  stripPatAux (matchWordEdition (String.data "expanded"))
    (stripPatAux (matchWordEdition (String.data "updated"))
      (stripPatAux (matchWordEdition (String.data "revised"))
        (stripPatAux matchNumEdition l)))

/-- Characters kept by the punctuation removal of _normalize_title: the
complement of the regex class excluding \w and \s. -/
def titleKeepChar (c : Char) : Bool :=
  pyIsWordChar c || pyIsSpace c

/-- Characters kept by the punctuation removal of _normalize_author: the
complement of the regex class excluding \w, \s and the period. -/
def authorKeepChar (c : Char) : Bool :=
  pyIsWordChar c || pyIsSpace c || c = '.'

/-- Embedding of DuplicateDetector._normalize_isbn: the empty guard, then
removal of hyphens and whitespace, then uppercasing (the memo cache of
the source is semantically transparent and omitted). -/
def normalizeIsbn (isbn : String) : String :=
  if isbn = "" then ""
  else String.mk ((isbn.data.filter (fun c => !(c = '-' || pyIsSpace c))).map pyToUpper)

/-- Embedding of DuplicateDetector._normalize_title: the empty guard,
NFKD, lowercasing, removal of one leading article, removal of characters
outside \w and \s, whitespace collapsing with strip, and removal of
trailing edition markers (the memo cache of the source is semantically
transparent and omitted). -/
def normalizeTitle (title : String) : String :=
  if title = "" then ""
  else
    let n1 := (nfkd title).data.map pyToLower
    let n2 := stripLeadingArticle n1
    let n3 := n2.filter titleKeepChar
    let n4 := pyStrip (collapseWs n3)
    String.mk (stripEditionMarkers n4)

/-- Rewrite of a name containing a comma from the form last, first to the
form first last; models the comma branch of _normalize_author (split on
the first comma, strip both parts, join with one space, strip). -/
def commaRewrite (l : List Char) : List Char :=
  let before := l.takeWhile (fun c => !(c = ','))
  let after := (l.dropWhile (fun c => !(c = ','))).drop 1
  pyStrip (pyStrip after ++ [' '] ++ pyStrip before)

/-- Embedding of DuplicateDetector._normalize_author: the empty guard,
NFKD, lowercasing, removal of characters outside \w, \s and the period,
whitespace collapsing with strip, and the last-comma-first rewrite. -/
def normalizeAuthor (author : String) : String :=
  if author = "" then ""
  else
    let n1 := (nfkd author).data.map pyToLower
    let n2 := n1.filter authorKeepChar
    let n3 := pyStrip (collapseWs n2)
    let n4 := if n3.contains ',' then commaRewrite n3 else n3
    String.mk n4

/-- Finds the first run of four consecutive ASCII digits; models
re.search applied with a four-digit pattern. -/
def findYearRun : List Char → Option (List Char)
  | c1 :: c2 :: c3 :: c4 :: rest =>
    if c1.isDigit && c2.isDigit && c3.isDigit && c4.isDigit
    then some [c1, c2, c3, c4]
    else findYearRun (c2 :: c3 :: c4 :: rest)
  | _ => none

/-- Embedding of DuplicateDetector._normalize_date: the empty guard, then
the first four-digit run if any, else the empty string. -/
def normalizeDate (dateStr : String) : String :=
  if dateStr = "" then ""
  else
    match findYearRun dateStr.data with
    | some y => String.mk y
    | none => ""

/-- Inner loop of the dynamic-programming Levenshtein distance of
DuplicateDetector._levenshtein_similarity: given the remaining characters
of the second string, the matching tail of the previous row and the last
value written to the current row, produces the rest of the current row
(insertion, deletion and substitution costs, minimised). -/
def levNextRow (c1 : Char) : List Char → List Nat → Nat → List Nat
  | [], _, _ => []
  | _ :: _, [], _ => []
  | c2 :: cs, pj :: prest, last =>
    let cur := min (min (prest.headD 0 + 1) (last + 1)) (pj + (if c1 = c2 then 0 else 1))
    cur :: levNextRow c1 cs prest cur

/-- Row-by-row Levenshtein distance, as written in the nested
levenshtein_distance helper: the initial row is the range of the second
length plus one, each character of the first string produces a new row
whose head is the one-based row index, and the answer is the last entry
of the final row. -/
def levCore (l1 l2 : List Char) : Nat :=
  if l2 = [] then l1.length
  else
    let final := l1.foldl
      (fun (st : List Nat × Nat) c1 =>
        ((st.2 + 1) :: levNextRow c1 l2 st.1 (st.2 + 1), st.2 + 1))
      (List.range (l2.length + 1), 0)
    final.1.getLastD 0

/-- Embedding of the levenshtein_distance helper, including its initial
swap that puts the longer string first. -/
def levenshteinDistance (l1 l2 : List Char) : Nat :=
  if l1.length < l2.length then levCore l2 l1 else levCore l1 l2

/-- Embedding of DuplicateDetector._levenshtein_similarity: one minus the
distance divided by the longer length, and one when both are empty. -/
def levenshteinSimilarity (s1 s2 : String) : ℚ :=
  let maxLen := max s1.length s2.length
  if maxLen = 0 then 1
  else 1 - (levenshteinDistance s1.data s2.data : ℚ) / (maxLen : ℚ)

/-- Embedding of DuplicateDetector._calculate_string_similarity.  The
difflib.SequenceMatcher ratio is a library call and is passed in as the
seqRatio parameter; the bounded memo cache of the source is semantically
transparent and omitted.  The source returns 0.0 when either string is
falsy, 1.0 on equality, and otherwise the sequence ratio, improved by the
Levenshtein similarity when both strings are shorter than 100
characters. -/
def calculateStringSimilarity (seqRatio : String → String → ℚ) (s1 s2 : String) : ℚ :=
  if s1 = "" || s2 = "" then 0
  else if s1 = s2 then 1
  else
    let sim := seqRatio s1 s2
    if s1.length < 100 && s2.length < 100
    then max sim (levenshteinSimilarity s1 s2)
    else sim

/-- One duplicate match produced by the detector, reduced to the two book
identifiers, which are the only fields _deduplicate_matches consults. -/
structure DupMatch where
  book1Id : Nat
  book2Id : Nat
deriving DecidableEq

/-- Canonical unordered key of a match: the sorted pair of the two book
identifiers, as built by tuple(sorted([...])) in _deduplicate_matches. -/
def canonicalPair (m : DupMatch) : Nat × Nat :=
  (min m.book1Id m.book2Id, max m.book1Id m.book2Id)

/-- Loop of DuplicateDetector._deduplicate_matches: keep a match when its
canonical pair has not been seen, and record the pair. -/
def dedupMatchesAux : List DupMatch → List (Nat × Nat) → List DupMatch
  | [], _ => []
  | m :: rest, seen =>
    if canonicalPair m ∈ seen then dedupMatchesAux rest seen
    else m :: dedupMatchesAux rest (canonicalPair m :: seen)

/-- Embedding of DuplicateDetector._deduplicate_matches, starting from an
empty seen set. -/
def dedupMatches (l : List DupMatch) : List DupMatch :=
  dedupMatchesAux l []

/-- Failure categories of retry_manager.RetryReason. -/
inductive RetryReason where
  | networkError
  | timeout
  | serverError
  | rateLimited
  | indexerDown
  | fileCorrupted
  | diskFull
  | permissionError
  | unknown
deriving DecidableEq

/-- Embedding of RetryManager._initialize_failure_patterns, in source
(insertion) order: for each reason, its match substrings, its retry
multiplier, and its immediate-retry flag.  The unknown reason has no
entry, exactly as in the source dictionary. -/
def failurePatternsList : List (RetryReason × (List String × ℚ × Bool)) :=
  [(.networkError,
    (["connection refused", "network unreachable", "dns lookup failed", "connection reset"],
     3/2, false)),
   (.timeout, (["timeout", "deadline exceeded", "request timeout"], 6/5, false)),
   (.serverError,
    (["500", "502", "503", "504", "internal server error", "bad gateway"], 2, false)),
   (.rateLimited, (["429", "rate limit", "too many requests", "quota exceeded"], 3, false)),
   (.indexerDown,
    (["indexer unavailable", "indexer offline", "indexer maintenance"], 5/2, false)),
   (.fileCorrupted,
    (["checksum mismatch", "corrupted file", "invalid file format"], 1, true)),
   (.diskFull, (["no space left", "disk full", "insufficient space"], 1, false)),
   (.permissionError, (["permission denied", "access denied", "forbidden"], 1, false))]

/-- Embedding of RetryManager.categorize_failure: a missing or empty
message is unknown; otherwise the message is lowercased and the first
reason (in source order) with a matching substring is returned, defaulting
to unknown. -/
def categorizeFailure (errorMessage : Option String) : RetryReason :=
  match errorMessage with
  | none => .unknown
  | some s =>
    if s = "" then .unknown
    else
      let lower := s.data.map pyToLower
      match failurePatternsList.find?
        (fun rp => rp.2.1.any (fun pat => containsSub pat.data lower)) with
      | some rp => rp.1
      | none => .unknown

/-- Retry multiplier of a reason; models failure_patterns.get with the
1.0 default used by calculate_retry_delay. -/
def retryMultiplier (r : RetryReason) : ℚ :=
  match failurePatternsList.find? (fun rp => rp.1 = r) with
  | some rp => rp.2.2.1
  | none => 1

/-- Immediate-retry flag of a reason; models failure_config.get with the
False default used by calculate_retry_delay. -/
def immediateRetry (r : RetryReason) : Bool :=
  match failurePatternsList.find? (fun rp => rp.1 = r) with
  | some rp => rp.2.2.2
  | none => false

/-- Embedding of retry_manager.RetryConfig. -/
structure RetryConfig where
  baseDelay : ℚ
  maxDelay : ℚ
  exponentialBase : ℚ
  maxRetries : Nat
  rateLimitBackoff : ℤ
  serverErrorBackoff : ℤ

/-- Default RetryConfig values of the source dataclass: 60 s base, 3600 s
maximum, exponential base 2, 5 retries, 300 s rate-limit backoff, 900 s
server-error backoff. -/
def defaultRetryConfig : RetryConfig :=
  ⟨60, 3600, 2, 5, 300, 900⟩

/-- Embedding of RetryManager.calculate_retry_delay.  The uniform random
jitter drawn by the source in the closed interval from 0.8 to 1.2 is a
parameter; the final int() conversion of the nonnegative float is the
floor. -/
def calculateRetryDelay (cfg : RetryConfig) (retryCount : Nat) (reason : RetryReason)
    (jitter : ℚ) : ℤ :=
  if reason = .rateLimited then cfg.rateLimitBackoff
  else if reason = .serverError then cfg.serverErrorBackoff
  else if immediateRetry reason then 0
  else
    let delay := min (cfg.baseDelay * cfg.exponentialBase ^ retryCount * retryMultiplier reason)
      cfg.maxDelay
    Int.floor (delay * jitter)

/-- One failed download row as consulted by the smart-retry filter: the
queue id, the indexer id and the stored error message. -/
structure RetryDownloadItem where
  id : Nat
  indexerId : Nat
  errorMessage : Option String
deriving DecidableEq

/-- Permanent-failure substrings of _filter_smart_retry, in source
order. -/
def permanentErrorPatterns : List String :=
  ["404", "not found", "removed", "deleted", "unavailable"]

/-- Number of failures recorded for an indexer within the last hour;
models the recent_failures list comprehension of _filter_smart_retry over
the in-memory failure_patterns map (a missing key contributes zero). -/
def recentFailureCount (patterns : List (Nat × List ℤ)) (now : ℤ) (indexerId : Nat) : Nat :=
  match patterns.find? (fun p => p.1 = indexerId) with
  | some p => (p.2.filter (fun ts => now - 3600 < ts)).length
  | none => 0

/-- Permanent-error test of _filter_smart_retry: a truthy (present,
nonempty) message that contains one of the permanent substrings after
lowercasing. -/
def hasPermanentErrorPattern (msg : Option String) : Bool :=
  match msg with
  | none => false
  | some s =>
    if s = "" then false
    else permanentErrorPatterns.any (fun pat => containsSub pat.data (s.data.map pyToLower))

/-- Embedding of AdvancedQueueManager._filter_smart_retry: an item is
dropped when its indexer shows more than five failures in the last hour,
or when its error message carries a permanent-failure substring; all
other items are kept in order. -/
def filterSmartRetry (patterns : List (Nat × List ℤ)) (now : ℤ) :
    List RetryDownloadItem → List RetryDownloadItem
  | [] => []
  | d :: rest =>
    if recentFailureCount patterns now d.indexerId > 5 then
      filterSmartRetry patterns now rest
    else if hasPermanentErrorPattern d.errorMessage then
      filterSmartRetry patterns now rest
    else d :: filterSmartRetry patterns now rest

/-- Queue states of advanced_queue_manager.QueueStatus. -/
inductive QueueStatus where
  | pending
  | downloading
  | completed
  | failed
  | cancelled
  | paused
deriving DecidableEq

/-- One download_queue row, reduced to the columns touched by
_update_download_status. -/
structure QueueRow where
  status : QueueStatus
  errorMessage : Option String
  retryCount : Nat
  maxRetries : Nat
  startedAt : Option ℤ
  updatedAt : ℤ
deriving DecidableEq

/-- Embedding of AdvancedQueueManager._update_download_status: with the
increment flag the row gets the new status, the given message and a
retry-count increment; without it the message is written only when
present, and started_at is stamped when the new status is
downloading. -/
def updateDownloadStatus (row : QueueRow) (status : QueueStatus)
    (errorMessage : Option String) (incrementRetry : Bool) (now : ℤ) : QueueRow :=
  if incrementRetry then
    { row with
      status := status, errorMessage := errorMessage,
      retryCount := row.retryCount + 1, updatedAt := now }
  else
    let r1 := { row with status := status, updatedAt := now }
    let r2 :=
      match errorMessage with
      | some m => { r1 with errorMessage := some m }
      | none => r1
    if status = .downloading then { r2 with startedAt := some now } else r2

/-- Error branch of AdvancedQueueManager._download_file: the retry count
is incremented exactly when it is still below max_retries. -/
def handleDownloadFailure (row : QueueRow) (errorMsg : String) (now : ℤ) : QueueRow :=
  if row.retryCount < row.maxRetries then
    updateDownloadStatus row .failed (some errorMsg) true now
  else
    updateDownloadStatus row .failed (some errorMsg) false now

/-- Possible terminations of the streaming section of _download_file: a
finished stream with its downloaded byte count and the declared
content-length (zero when the header was absent), a cancellation raised
at the shutdown check, or an exception with its message. -/
inductive StreamOutcome where
  | success : Nat → Nat → StreamOutcome
  | cancelled : StreamOutcome
  | failure : String → StreamOutcome

/-- Observable result of one _download_file task: the status written to
the queue row, whether the retry count was incremented, and whether the
temporary file is absent when the task returns. -/
structure DownloadFinal where
  rowStatus : QueueStatus
  retryIncremented : Bool
  tempRemoved : Bool
deriving DecidableEq

/-- Embedding of the handler and cleanup structure of
AdvancedQueueManager._download_file: a complete stream with a matching
(or undeclared) size commits completed; a declared-size mismatch raises
and is handled as a failure; the asyncio.CancelledError handler writes
cancelled; the error handler writes failed and increments the retry count
only below max_retries; the finally block removes the temporary file on
every path (on the success path the file was already renamed away). -/
def downloadFileResult (row : QueueRow) (outcome : StreamOutcome) : DownloadFinal :=
  match outcome with
  | .success downloaded total =>
    if total > 0 && downloaded ≠ total then
      { rowStatus := .failed,
        retryIncremented := row.retryCount < row.maxRetries,
        tempRemoved := true }
    else
      { rowStatus := .completed, retryIncremented := false, tempRemoved := true }
  | .cancelled =>
    { rowStatus := .cancelled, retryIncremented := false, tempRemoved := true }
  | .failure _ =>
    { rowStatus := .failed,
      retryIncremented := row.retryCount < row.maxRetries,
      tempRemoved := true }

/-- Breaker states of failover_manager.CircuitBreaker (the string
constants CLOSED, OPEN, HALF_OPEN of the source). -/
inductive BreakerState where
  | closed
  | opened
  | halfOpen
deriving DecidableEq

/-- Embedding of the failover_manager.CircuitBreaker state: thresholds
are fixed at construction, the failure counter, the last failure
timestamp and the state evolve. -/
structure CircuitBreaker where
  failureThreshold : Nat
  recoveryTimeout : ℚ
  failureCount : Nat
  lastFailureTime : Option ℚ
  state : BreakerState
deriving DecidableEq

/-- Embedding of CircuitBreaker.record_success: reset the counter and
close the breaker. -/
def breakerRecordSuccess (cb : CircuitBreaker) : CircuitBreaker :=
  { cb with failureCount := 0, state := .closed }

/-- Embedding of CircuitBreaker.record_failure: increment the counter,
stamp the failure time, and open the breaker once the counter reaches the
threshold. -/
def breakerRecordFailure (cb : CircuitBreaker) (now : ℚ) : CircuitBreaker :=
  let cb' := { cb with failureCount := cb.failureCount + 1, lastFailureTime := some now }
  if cb'.failureCount ≥ cb'.failureThreshold then { cb' with state := .opened } else cb'

/-- Embedding of CircuitBreaker.call_allowed, returning the decision and
the possibly updated breaker: closed and half-open allow the call; open
allows it (moving to half-open) once strictly more than the recovery
timeout has elapsed since the last failure. -/
def breakerCallAllowed (cb : CircuitBreaker) (now : ℚ) : Bool × CircuitBreaker :=
  match cb.state with
  | .closed => (true, cb)
  | .opened =>
    match cb.lastFailureTime with
    | some t =>
      if now - t > cb.recoveryTimeout then (true, { cb with state := .halfOpen })
      else (false, cb)
    | none => (false, cb)
  | .halfOpen => (true, cb)

/-- States reachable by a breaker from its freshly constructed state
(counter zero, no failure time, closed) under the three operations of the
class. -/
inductive BreakerReachable : CircuitBreaker → Prop where
  | init (ft : Nat) (rt : ℚ) : BreakerReachable ⟨ft, rt, 0, none, .closed⟩
  | success {cb : CircuitBreaker} :
      BreakerReachable cb → BreakerReachable (breakerRecordSuccess cb)
  | failure {cb : CircuitBreaker} (now : ℚ) :
      BreakerReachable cb → BreakerReachable (breakerRecordFailure cb now)
  | allowed {cb : CircuitBreaker} (now : ℚ) :
      BreakerReachable cb → BreakerReachable (breakerCallAllowed cb now).2

/-- Task outcome states of database_optimizer.OptimizationStatus; the
partialResult constructor renders the source value named partial. -/
inductive OptStatus where
  | success
  | failed
  | skipped
  | partialResult
  | inProgress
deriving DecidableEq

/-- One row of PRAGMA foreign_key_check as unpacked by
perform_integrity_check. -/
structure FkViolation where
  table : String
  rowid : Nat
  parent : String
  fkid : Nat
deriving DecidableEq

/-- Embedding of the status classification of
DatabaseOptimizer.perform_integrity_check: an exception yields failed;
otherwise the task succeeds exactly when PRAGMA quick_check returned the
single row ok and PRAGMA foreign_key_check returned no rows, and is
partial otherwise. -/
def integrityCheckStatus (result : Except String (List String × List FkViolation)) :
    OptStatus :=
  match result with
  | .error _ => .failed
  | .ok (quickCheckRows, fkViolations) =>
    if quickCheckRows.length = 1 ∧ quickCheckRows.headD "" = "ok" ∧ fkViolations = []
    then .success
    else .partialResult

/-- Maintenance task kinds appended to tasks_performed by
run_comprehensive_optimization. -/
inductive MaintKind where
  | integrityCheck
  | cleanup
  | analyze
  | reindex
  | vacuum
  | backup
deriving DecidableEq

/-- Embedding of the task-selection control flow of
DatabaseOptimizer.run_comprehensive_optimization: only a failed integrity
check stops the run after the first task; otherwise cleanup and analyze
always run, reindex runs when fragmentation exceeds its threshold, vacuum
runs when the database size or the fragmentation exceeds its threshold,
and backup always runs. -/
def comprehensiveOptimizationTasks (integrityStatus : OptStatus)
    (fragmentationPercent dbSizeMb fragThreshold vacuumThresholdMb : ℚ) : List MaintKind :=
  if integrityStatus = .failed then [.integrityCheck]
  else
    [.integrityCheck, .cleanup, .analyze]
      ++ (if fragmentationPercent > fragThreshold then [.reindex] else [])
      ++ (if dbSizeMb > vacuumThresholdMb ∨ fragmentationPercent > fragThreshold
          then [.vacuum] else [])
      ++ [.backup]


/-- Auxiliary predicate for the idempotence proofs: the head character,
if any, is whitespace. -/
def headSpace : List Char → Bool
  | [] => false
  | c :: _ => pyIsSpace c

/-- Auxiliary predicate for the idempotence proofs: the last character,
if any, is whitespace. -/
def lastSpace : List Char → Bool
  | [] => false
  | [c] => pyIsSpace c
  | _ :: rest => lastSpace rest

/-- Auxiliary predicate for the idempotence proofs: no two adjacent
characters are both whitespace. -/
def noAdjSpaces : List Char → Bool
  | c :: d :: rest => !(pyIsSpace c && pyIsSpace d) && noAdjSpaces (d :: rest)
  | _ => true

/-- Auxiliary predicate for the idempotence proofs: every whitespace
character is the plain space character. -/
def spacesBlank (l : List Char) : Bool :=
  l.all (fun c => !(pyIsSpace c) || c = ' ')

example : normalizeTitle "the an x" = "an x" := by decide
example : normalizeTitle "an x" = "x" := by decide
example : normalizeTitle "The Great Book" = "great book" := by decide
example : normalizeIsbn "978-0-0000-0001" = "978000000001" := by decide
example : normalizeAuthor "Doe, John" = "doe john" := by decide
example : normalizeDate "March 2004, 12345" = "2004" := by decide
example : normalizeTitle "Book  Title, 2nd Edition" = "book title" := by decide


example : calculateStringSimilarity (fun _ _ => 0) "" "" = 0 := by decide
example : calculateStringSimilarity (fun _ _ => 0) "ab" "ab" = 1 := by decide
example : levenshteinDistance (String.data "kitten") (String.data "sitting") = 3 := by decide
example : categorizeFailure (some "HTTP 429 Too Many Requests") = .rateLimited := by decide
example : categorizeFailure (some "weird") = .unknown := by decide
example : calculateRetryDelay defaultRetryConfig 2 .networkError 1 = 360 := by
  norm_num [calculateRetryDelay, retryMultiplier, immediateRetry, failurePatternsList,
    defaultRetryConfig]
  decide
example : calculateRetryDelay defaultRetryConfig 3 .rateLimited (9/10) = 300 := by
  norm_num [calculateRetryDelay, defaultRetryConfig]
example :
    dedupMatches [⟨1, 2⟩, ⟨2, 1⟩, ⟨1, 3⟩] = [⟨1, 2⟩, ⟨1, 3⟩] := by decide

lemma dedupMatchesAux_spec (l : List DupMatch) : ∀ seen : List (Nat × Nat),
    ((dedupMatchesAux l seen).map canonicalPair).Nodup ∧
    ∀ k ∈ (dedupMatchesAux l seen).map canonicalPair, k ∉ seen := by
  induction l with
  | nil => intro seen; simp [dedupMatchesAux]
  | cons m rest ih =>
    intro seen
    by_cases h : canonicalPair m ∈ seen
    · simpa [dedupMatchesAux, h] using ih seen
    · have hrec := ih (canonicalPair m :: seen)
      refine ⟨?_, ?_⟩
      · simp only [dedupMatchesAux, if_neg h, List.map_cons, List.nodup_cons]
        exact ⟨fun hmem => (hrec.2 _ hmem) (List.mem_cons_self _ _), hrec.1⟩
      · intro k hk
        simp only [dedupMatchesAux, if_neg h, List.map_cons, List.mem_cons] at hk
        rcases hk with rfl | hk
        · exact h
        · exact fun hks => (hrec.2 _ hk) (List.mem_cons_of_mem _ hks)

/-- Claim C9: in the list of duplicate matches produced by one detection run
(the output of _deduplicate_matches, up to the reordering done by the
final sort), each canonical unordered book-id pair appears at most
once. -/
theorem duplicate_matches_unique_canonical_pairs (l out : List DupMatch)
    (h : out.Perm (dedupMatches l)) : (out.map canonicalPair).Nodup :=
  ((h.map canonicalPair).nodup_iff).mpr (dedupMatchesAux_spec l []).1

/-- Witness for duplicate_matches_unique_canonical_pairs: a run whose raw
matches mention the pair of books 1 and 2 in both orders keeps only one
of them. -/
theorem duplicate_matches_unique_canonical_pairs_witness :
    ((dedupMatches [⟨1, 2⟩, ⟨2, 1⟩, ⟨1, 3⟩]).map canonicalPair).Nodup :=
  duplicate_matches_unique_canonical_pairs [⟨1, 2⟩, ⟨2, 1⟩, ⟨1, 3⟩] _ (List.Perm.refl _)

/-- Claim C2 counterexample: the string-similarity function returns 0, not 1,
on two empty strings, because the falsy-argument check precedes the
equality check. -/
theorem string_similarity_empty_empty_counterexample :
    calculateStringSimilarity (fun _ _ => 0) "" "" ≠ 1 := by decide

/-- Claim C2 as amended: identical nonempty strings yield 1.0; the empty
string compared with anything (the empty string included) yields 0.0. -/
theorem string_similarity_base_cases (seqRatio : String → String → ℚ) :
    (∀ s : String, s ≠ "" → calculateStringSimilarity seqRatio s s = 1) ∧
    calculateStringSimilarity seqRatio "" "" = 0 ∧
    (∀ s : String, calculateStringSimilarity seqRatio "" s = 0 ∧
      calculateStringSimilarity seqRatio s "" = 0) := by
  refine ⟨fun s hs => ?_, by simp [calculateStringSimilarity], fun s => ⟨?_, ?_⟩⟩
  · simp [calculateStringSimilarity, hs]
  · simp [calculateStringSimilarity]
  · simp [calculateStringSimilarity]

/-- Witness for string_similarity_base_cases at a concrete nonempty
string. -/
theorem string_similarity_base_cases_witness :
    calculateStringSimilarity (fun _ _ => 0) "ab" "ab" = 1 :=
  (string_similarity_base_cases (fun _ _ => 0)).1 "ab" (by decide)

/-- Claim C10: failure categorization is total and defaults to unknown: a
missing message, an empty message, and a message matching none of the
configured substrings all map to the unknown reason (the embedding is a
total function, so no exception can escape). -/
theorem categorize_failure_default_unknown :
    categorizeFailure none = .unknown ∧
    categorizeFailure (some "") = .unknown ∧
    ∀ s : String,
      (∀ rp ∈ failurePatternsList, ∀ pat ∈ rp.2.1,
        containsSub pat.data (s.data.map pyToLower) = false) →
      categorizeFailure (some s) = .unknown := by
  refine ⟨rfl, rfl, fun s h => ?_⟩
  unfold categorizeFailure
  by_cases hs : s = ""
  · simp [hs]
  · have hnone : failurePatternsList.find?
        (fun rp => rp.2.1.any (fun pat => containsSub pat.data (s.data.map pyToLower)))
        = none := by
      rw [List.find?_eq_none]
      intro rp hrp
      rw [List.any_eq_true]
      push_neg
      intro pat hpat
      simp [h rp hrp pat hpat]
    simp [hs, hnone]

/-- Witness for categorize_failure_default_unknown at a concrete message
matching no pattern. -/
theorem categorize_failure_default_unknown_witness :
    categorizeFailure (some "xyz") = .unknown :=
  categorize_failure_default_unknown.2.2 "xyz" (by decide)

/-- Claim C3 counterexample: an item whose indexer shows exactly five failures
within the last hour passes the smart-retry filter, because the source
skips only on strictly more than five; the claim as stated would exclude
it at five. -/
theorem smart_retry_five_failures_counterexample :
    recentFailureCount [(1, [100, 200, 300, 400, 500])] 600 1 = 5 ∧
    filterSmartRetry [(1, [100, 200, 300, 400, 500])] 600
        [⟨7, 1, some "connection reset"⟩] =
      [⟨7, 1, some "connection reset"⟩] := by
  constructor <;> decide

/-- Claim C3 as amended: a failed item is excluded by the smart-retry filter
exactly when its indexer shows strictly more than five recorded failures
within the last hour, or its error message contains (case-insensitively)
one of the permanent-failure substrings; every other item is kept. -/
theorem smart_retry_filter_characterization (patterns : List (Nat × List ℤ)) (now : ℤ)
    (l : List RetryDownloadItem) (d : RetryDownloadItem) :
    d ∈ filterSmartRetry patterns now l ↔
      d ∈ l ∧ ¬(recentFailureCount patterns now d.indexerId > 5 ∨
        hasPermanentErrorPattern d.errorMessage = true) := by
  induction l with
  | nil => simp [filterSmartRetry]
  | cons x rest ih =>
    by_cases ha : recentFailureCount patterns now x.indexerId > 5
    · rw [filterSmartRetry, if_pos ha]
      constructor
      · intro hmem
        rcases ih.mp hmem with ⟨hmem', hnot⟩
        exact ⟨List.mem_cons_of_mem _ hmem', hnot⟩
      · rintro ⟨hmem, hnot⟩
        rcases List.mem_cons.mp hmem with rfl | hmem'
        · exact absurd (Or.inl ha) hnot
        · exact ih.mpr ⟨hmem', hnot⟩
    · by_cases hb : hasPermanentErrorPattern x.errorMessage = true
      · rw [filterSmartRetry, if_neg ha, if_pos hb]
        constructor
        · intro hmem
          rcases ih.mp hmem with ⟨hmem', hnot⟩
          exact ⟨List.mem_cons_of_mem _ hmem', hnot⟩
        · rintro ⟨hmem, hnot⟩
          rcases List.mem_cons.mp hmem with rfl | hmem'
          · exact absurd (Or.inr hb) hnot
          · exact ih.mpr ⟨hmem', hnot⟩
      · rw [filterSmartRetry, if_neg ha, if_neg hb]
        constructor
        · intro hmem
          rcases List.mem_cons.mp hmem with rfl | hmem'
          · exact ⟨List.mem_cons_self _ _, by tauto⟩
          · rcases ih.mp hmem' with ⟨hmem'', hnot⟩
            exact ⟨List.mem_cons_of_mem _ hmem'', hnot⟩
        · rintro ⟨hmem, hnot⟩
          rcases List.mem_cons.mp hmem with rfl | hmem'
          · exact List.mem_cons_self _ _
          · exact List.mem_cons_of_mem _ (ih.mpr ⟨hmem', hnot⟩)

/-- Claim C8: the failure path of _download_file preserves the invariant that
the retry count never exceeds max_retries, and increments the retry count
exactly when the incremented value still respects the bound. -/
theorem retry_count_invariant_on_failure (row : QueueRow) (msg : String) (now : ℤ)
    (h : row.retryCount ≤ row.maxRetries) :
    (handleDownloadFailure row msg now).retryCount ≤
      (handleDownloadFailure row msg now).maxRetries ∧
    ((handleDownloadFailure row msg now).retryCount = row.retryCount + 1 ↔
      row.retryCount + 1 ≤ row.maxRetries) := by
  by_cases hlt : row.retryCount < row.maxRetries <;>
    constructor <;>
    simp [handleDownloadFailure, updateDownloadStatus, hlt] <;>
    omega

/-- Witness for retry_count_invariant_on_failure at a row one retry away
from its bound. -/
theorem retry_count_invariant_on_failure_witness :
    (handleDownloadFailure ⟨.downloading, none, 2, 3, none, 0⟩ "timeout" 10).retryCount ≤
      (handleDownloadFailure ⟨.downloading, none, 2, 3, none, 0⟩ "timeout" 10).maxRetries :=
  (retry_count_invariant_on_failure ⟨.downloading, none, 2, 3, none, 0⟩ "timeout" 10
    (by decide)).1

/-- Claim C5 counterexample: a download task cancelled by the shutdown signal
writes the cancelled status to its queue row, not pending as the claim
states. -/
theorem cancelled_download_status_counterexample :
    (downloadFileResult ⟨.downloading, none, 0, 3, none, 0⟩ .cancelled).rowStatus ≠
      QueueStatus.pending := by decide

/-- Claim C5 as amended: when a running download task receives the
shutdown/cancellation signal while streaming, its temporary file is
removed and its queue row is marked cancelled (a download already past
the streaming loop finalizes as completed instead). -/
theorem cancelled_download_cleanup (row : QueueRow) :
    (downloadFileResult row .cancelled).tempRemoved = true ∧
    (downloadFileResult row .cancelled).rowStatus = .cancelled := by
  simp [downloadFileResult]

lemma breaker_reachable_count_at_threshold {cb : CircuitBreaker}
    (h : BreakerReachable cb) :
    cb.state ≠ .closed → cb.failureThreshold ≤ cb.failureCount := by
  induction h with
  | init ft rt => intro hc; exact absurd rfl hc
  | success hcb ih => intro hc; exact absurd rfl hc
  | @failure cb now hcb ih =>
    intro hc
    have hproj1 : (breakerRecordFailure cb now).failureThreshold = cb.failureThreshold := by
      simp only [breakerRecordFailure]; split <;> rfl
    have hproj2 : (breakerRecordFailure cb now).failureCount = cb.failureCount + 1 := by
      simp only [breakerRecordFailure]; split <;> rfl
    rw [hproj1, hproj2]
    by_cases hge : cb.failureThreshold ≤ cb.failureCount + 1
    · exact hge
    · have hstate : (breakerRecordFailure cb now).state = cb.state := by
        simp only [breakerRecordFailure]
        rw [if_neg (by simp; omega)]
      exact absurd (Nat.le_succ_of_le (ih (by rw [hstate] at hc; exact hc))) hge
  | @allowed cb now hcb ih =>
    intro hc
    cases hst : cb.state with
    | closed =>
      rw [show (breakerCallAllowed cb now).2 = cb from by
        simp [breakerCallAllowed, hst]] at hc ⊢
      exact ih hc
    | opened =>
      cases hlf : cb.lastFailureTime with
      | none =>
        rw [show (breakerCallAllowed cb now).2 = cb from by
          simp [breakerCallAllowed, hst, hlf]] at hc ⊢
        exact ih hc
      | some t =>
        by_cases htime : now - t > cb.recoveryTimeout
        · rw [show (breakerCallAllowed cb now).2 = { cb with state := .halfOpen } from by
            simp [breakerCallAllowed, hst, hlf, htime]] at hc ⊢
          simpa using ih (by simp [hst])
        · rw [show (breakerCallAllowed cb now).2 = cb from by
            simp [breakerCallAllowed, hst, hlf, htime]] at hc ⊢
          exact ih hc
    | halfOpen =>
      rw [show (breakerCallAllowed cb now).2 = cb from by
        simp [breakerCallAllowed, hst]] at hc ⊢
      exact ih hc

/-- Claim C6: the circuit breaker opens exactly when consecutive failures reach
the threshold; while open, calls are refused until strictly more than the
recovery timeout has elapsed since the last failure, after which the call
is allowed and the breaker moves to half-open; in half-open the call is
allowed as a probe, a recorded success closes the breaker and resets the
counter, and a recorded failure reopens it. -/
theorem circuit_breaker_state_machine (cb : CircuitBreaker) (h : BreakerReachable cb)
    (now t : ℚ) :
    (cb.state = .closed →
      ((breakerRecordFailure cb t).state = .opened ↔
        cb.failureThreshold ≤ cb.failureCount + 1)) ∧
    (cb.state = .opened →
      ((breakerCallAllowed cb now).1 = true ↔
        ∃ lf, cb.lastFailureTime = some lf ∧ cb.recoveryTimeout < now - lf)) ∧
    (cb.state = .opened → (breakerCallAllowed cb now).1 = true →
      (breakerCallAllowed cb now).2.state = .halfOpen) ∧
    (cb.state = .halfOpen → (breakerCallAllowed cb now).1 = true) ∧
    (cb.state = .halfOpen →
      (breakerRecordSuccess cb).state = .closed ∧
      (breakerRecordSuccess cb).failureCount = 0) ∧
    (cb.state = .halfOpen → (breakerRecordFailure cb t).state = .opened) := by
  refine ⟨?_, ?_, ?_, ?_, fun _ => ⟨rfl, rfl⟩, ?_⟩
  · intro hs
    simp only [breakerRecordFailure]
    by_cases hge : cb.failureCount + 1 ≥ cb.failureThreshold
    · simp only [ge_iff_le] at hge ⊢
      rw [if_pos (by simpa using hge)]
      simpa using hge
    · rw [if_neg (by simpa using hge)]
      simp only [hs]
      constructor
      · intro hco; cases hco
      · intro hle; omega
  · intro hs
    cases hlf : cb.lastFailureTime with
    | none => simp [breakerCallAllowed, hs, hlf]
    | some t0 =>
      by_cases htime : now - t0 > cb.recoveryTimeout
      · simp [breakerCallAllowed, hs, hlf, htime]
      · simp only [breakerCallAllowed, hs, hlf, if_neg htime]
        constructor
        · intro hfalse; cases hfalse
        · rintro ⟨lf, hlf2, htime2⟩
          cases hlf2
          exact absurd htime2 (by simpa using htime)
  · intro hs hallow
    cases hlf : cb.lastFailureTime with
    | none => simp [breakerCallAllowed, hs, hlf] at hallow
    | some t0 =>
      by_cases htime : now - t0 > cb.recoveryTimeout
      · simp [breakerCallAllowed, hs, hlf, htime]
      · simp [breakerCallAllowed, hs, hlf, htime] at hallow
  · intro hs
    simp [breakerCallAllowed, hs]
  · intro hs
    have hth := breaker_reachable_count_at_threshold h (by simp [hs])
    simp only [breakerRecordFailure]
    rw [if_pos (by simp; omega)]

/-- Witness for circuit_breaker_state_machine: a freshly constructed
breaker with threshold 5 does not open on its first failure. -/
theorem circuit_breaker_state_machine_witness :
    (breakerRecordFailure ⟨5, 60, 0, none, .closed⟩ 0).state = .opened ↔ (5 : Nat) ≤ 0 + 1 :=
  (circuit_breaker_state_machine ⟨5, 60, 0, none, .closed⟩ (BreakerReachable.init 5 60)
    0 0).1 rfl

lemma calcRetryDelay_generic (rc : Nat) (r : RetryReason) (j : ℚ)
    (hr : r ≠ .rateLimited) (hs : r ≠ .serverError) (hi : immediateRetry r = false) :
    calculateRetryDelay defaultRetryConfig rc r j =
      Int.floor (min (3600 : ℚ) (60 * 2 ^ rc * retryMultiplier r) * j) := by
  simp only [calculateRetryDelay, if_neg hr, if_neg hs, hi, Bool.false_eq_true, if_false,
    defaultRetryConfig]
  rw [min_comm]

/-- Claim C7: the retry delay equals the floor of min(max_delay, base_delay
times exp_base to the retry count times the reason multiplier) scaled by
the jitter factor drawn from the closed interval from 0.8 to 1.2, except
that rate_limited always yields exactly 300 s, server_error always yields
exactly 900 s, and file_corrupted always yields 0, independent of the
retry count and the jitter (defaults: base 60 s, exponential base 2,
maximum 3600 s). -/
theorem retry_delay_formula (retryCount : Nat) (reason : RetryReason) (jitter : ℚ)
    (h1 : 4/5 ≤ jitter) (h2 : jitter ≤ 6/5) :
    calculateRetryDelay defaultRetryConfig retryCount .rateLimited jitter = 300 ∧
    calculateRetryDelay defaultRetryConfig retryCount .serverError jitter = 900 ∧
    calculateRetryDelay defaultRetryConfig retryCount .fileCorrupted jitter = 0 ∧
    (reason ≠ .rateLimited → reason ≠ .serverError → reason ≠ .fileCorrupted →
      calculateRetryDelay defaultRetryConfig retryCount reason jitter =
        Int.floor (min (3600 : ℚ) (60 * 2 ^ retryCount * retryMultiplier reason) * jitter)) := by
  refine ⟨rfl, rfl, rfl, fun hr hs hf => ?_⟩
  have hi : immediateRetry reason = false := by
    cases reason <;> first | rfl | exact absurd rfl hf
  exact calcRetryDelay_generic retryCount reason jitter hr hs hi

/-- Witness for retry_delay_formula: the rate-limited backoff is exactly
300 s at retry count 0 with jitter 1. -/
theorem retry_delay_formula_witness :
    calculateRetryDelay defaultRetryConfig 0 .rateLimited 1 = 300 :=
  (retry_delay_formula 0 .networkError 1 (by norm_num) (by norm_num)).1

/-- Claim C1 counterexample: a run whose integrity check finds one
foreign-key violation marks the integrity task partial, yet the
follow-on tasks (cleanup, analyze, backup among them) still execute. -/
theorem integrity_partial_counterexample :
    integrityCheckStatus (.ok (["ok"], [⟨"download_queue", 1, "books", 0⟩])) =
      .partialResult ∧
    MaintKind.cleanup ∈ comprehensiveOptimizationTasks
      (integrityCheckStatus (.ok (["ok"], [⟨"download_queue", 1, "books", 0⟩])))
      0 0 25 100 ∧
    MaintKind.backup ∈ comprehensiveOptimizationTasks
      (integrityCheckStatus (.ok (["ok"], [⟨"download_queue", 1, "books", 0⟩])))
      0 0 25 100 := by
  have hst : integrityCheckStatus
      (.ok (["ok"], [⟨"download_queue", 1, "books", 0⟩])) = .partialResult := by decide
  refine ⟨hst, ?_, ?_⟩ <;> rw [hst] <;> simp [comprehensiveOptimizationTasks]

/-- Claim C1 as amended: if the integrity check finds any violation (quick
check not ok or any foreign-key violation) without raising, the integrity
task is marked partial, but the follow-on tasks cleanup, analyze and
backup all still execute in that run (and reindex and vacuum follow their
own gates); the run is cut short after the integrity task only when the
integrity check's status is failed, which the source reserves for a
raised exception. -/
theorem integrity_violation_partial_and_tasks_proceed
    (qc : List String) (fk : List FkViolation) (frag size fragTh vacTh : ℚ)
    (hviol : ¬(qc.length = 1 ∧ qc.headD "" = "ok" ∧ fk = [])) :
    integrityCheckStatus (.ok (qc, fk)) = .partialResult ∧
    MaintKind.cleanup ∈ comprehensiveOptimizationTasks
      (integrityCheckStatus (.ok (qc, fk))) frag size fragTh vacTh ∧
    MaintKind.analyze ∈ comprehensiveOptimizationTasks
      (integrityCheckStatus (.ok (qc, fk))) frag size fragTh vacTh ∧
    MaintKind.backup ∈ comprehensiveOptimizationTasks
      (integrityCheckStatus (.ok (qc, fk))) frag size fragTh vacTh ∧
    ∀ (st : OptStatus) (frag2 size2 fragTh2 vacTh2 : ℚ),
      comprehensiveOptimizationTasks st frag2 size2 fragTh2 vacTh2 = [.integrityCheck] ↔
        st = .failed := by
  have hst : integrityCheckStatus (.ok (qc, fk)) = .partialResult := by
    simp only [integrityCheckStatus]
    rw [if_neg hviol]
  refine ⟨hst, ?_, ?_, ?_, ?_⟩
  · rw [hst]; simp [comprehensiveOptimizationTasks]
  · rw [hst]; simp [comprehensiveOptimizationTasks]
  · rw [hst]; simp [comprehensiveOptimizationTasks]
  · intro st frag2 size2 fragTh2 vacTh2
    constructor
    · intro heq
      by_contra hne
      have hb : MaintKind.backup ∈
          comprehensiveOptimizationTasks st frag2 size2 fragTh2 vacTh2 := by
        simp only [comprehensiveOptimizationTasks]
        rw [if_neg hne]
        simp
      rw [heq] at hb
      simp at hb
    · intro hf
      simp only [comprehensiveOptimizationTasks]
      rw [if_pos hf]

/-- Witness for integrity_violation_partial_and_tasks_proceed at a run
with one foreign-key violation and default thresholds. -/
theorem integrity_violation_partial_and_tasks_proceed_witness :
    integrityCheckStatus (.ok (["ok"], [⟨"download_history", 2, "books", 0⟩])) =
      .partialResult :=
  (integrity_violation_partial_and_tasks_proceed ["ok"]
    [⟨"download_history", 2, "books", 0⟩] 0 0 25 100 (by decide)).1

lemma pyToLower_fix_of_mem : ∀ d ∈ asciiCasePairs.map Prod.snd, pyToLower d = d := by
  decide

lemma pyToUpper_fix_of_mem : ∀ d ∈ asciiCasePairs.map Prod.fst, pyToUpper d = d := by
  decide

lemma pyToLower_cases (c : Char) :
    pyToLower c = c ∨ pyToLower c ∈ asciiCasePairs.map Prod.snd := by
  unfold pyToLower
  cases hf : asciiCasePairs.find? (fun p => p.1 = c) with
  | none => exact Or.inl rfl
  | some p => exact Or.inr (List.mem_map_of_mem _ (List.mem_of_find?_eq_some hf))

lemma pyToUpper_cases (c : Char) :
    pyToUpper c = c ∨ pyToUpper c ∈ asciiCasePairs.map Prod.fst := by
  unfold pyToUpper
  cases hf : asciiCasePairs.find? (fun p => p.2 = c) with
  | none => exact Or.inl rfl
  | some p => exact Or.inr (List.mem_map_of_mem _ (List.mem_of_find?_eq_some hf))

lemma pyToLower_idem (c : Char) : pyToLower (pyToLower c) = pyToLower c := by
  rcases pyToLower_cases c with h | h
  · rw [h]; exact h
  · exact pyToLower_fix_of_mem _ h

lemma pyToUpper_idem (c : Char) : pyToUpper (pyToUpper c) = pyToUpper c := by
  rcases pyToUpper_cases c with h | h
  · rw [h]; exact h
  · exact pyToUpper_fix_of_mem _ h

lemma pyToUpper_keeps_non_dash_space {c : Char} (h : (!(c = '-' || pyIsSpace c)) = true) :
    (!(pyToUpper c = '-' || pyIsSpace (pyToUpper c))) = true := by
  rcases pyToUpper_cases c with hc | hc
  · rw [hc]; exact h
  · revert hc
    have : ∀ d ∈ asciiCasePairs.map Prod.fst, (!(d = '-' || pyIsSpace d)) = true := by decide
    exact fun hc => this _ hc

lemma map_fix_of_forall {f : Char → Char} (l : List Char) (h : ∀ c ∈ l, f c = c) :
    l.map f = l := by
  induction l with
  | nil => rfl
  | cons c rest ih =>
    simp only [List.map_cons, h c (List.mem_cons_self _ _)]
    rw [ih (fun x hx => h x (List.mem_cons_of_mem _ hx))]

lemma noAdjSpaces_cons (c : Char) (l : List Char) :
    noAdjSpaces (c :: l) = ((!(pyIsSpace c && headSpace l)) && noAdjSpaces l) := by
  cases l <;> simp [noAdjSpaces, headSpace]

lemma noAdjSpaces_tail {c : Char} {l : List Char} (h : noAdjSpaces (c :: l) = true) :
    noAdjSpaces l = true := by
  rw [noAdjSpaces_cons] at h
  simp at h
  exact h.2

lemma collapseAux_nil (b : Bool) : collapseAux b [] = [] := by cases b <;> rfl

lemma collapseAux_cons_space_true {d : Char} {rest : List Char} (hd : pyIsSpace d = true) :
    collapseAux true (d :: rest) = collapseAux true rest := by
  simp [collapseAux, hd]

lemma collapseAux_cons_space_false {d : Char} {rest : List Char} (hd : pyIsSpace d = true) :
    collapseAux false (d :: rest) = ' ' :: collapseAux true rest := by
  simp [collapseAux, hd]

lemma collapseAux_cons_nonspace {d : Char} {rest : List Char} (b : Bool)
    (hd : pyIsSpace d = false) :
    collapseAux b (d :: rest) = d :: collapseAux false rest := by
  cases b <;> simp [collapseAux, hd]

lemma mem_collapseAux {c : Char} : ∀ (b : Bool) (l : List Char),
    c ∈ collapseAux b l → c = ' ' ∨ c ∈ l := by
  intro b l
  induction l generalizing b with
  | nil => intro h; rw [collapseAux_nil] at h; cases h
  | cons d rest ih =>
    intro h
    by_cases hd : pyIsSpace d = true
    · cases b with
      | true =>
        rw [collapseAux_cons_space_true hd] at h
        rcases ih true h with h' | h'
        · exact Or.inl h'
        · exact Or.inr (List.mem_cons_of_mem _ h')
      | false =>
        rw [collapseAux_cons_space_false hd, List.mem_cons] at h
        rcases h with rfl | h
        · exact Or.inl rfl
        · rcases ih true h with h' | h'
          · exact Or.inl h'
          · exact Or.inr (List.mem_cons_of_mem _ h')
    · rw [collapseAux_cons_nonspace b (by simpa using hd), List.mem_cons] at h
      rcases h with rfl | h
      · exact Or.inr (List.mem_cons_self _ _)
      · rcases ih false h with h' | h'
        · exact Or.inl h'
        · exact Or.inr (List.mem_cons_of_mem _ h')

lemma spacesBlank_collapseAux : ∀ (b : Bool) (l : List Char),
    spacesBlank (collapseAux b l) = true := by
  intro b l
  induction l generalizing b with
  | nil => rw [collapseAux_nil]; rfl
  | cons d rest ih =>
    by_cases hd : pyIsSpace d = true
    · cases b with
      | true => rw [collapseAux_cons_space_true hd]; exact ih true
      | false =>
        rw [collapseAux_cons_space_false hd]
        have := ih true
        simp only [spacesBlank, List.all_cons] at *
        rw [this]
        simp
    · rw [collapseAux_cons_nonspace b (by simpa using hd)]
      have := ih false
      simp only [spacesBlank, List.all_cons] at *
      rw [this]
      simp [hd]

lemma headSpace_collapseAux_true : ∀ l : List Char,
    headSpace (collapseAux true l) = false := by
  intro l
  induction l with
  | nil => rfl
  | cons d rest ih =>
    by_cases hd : pyIsSpace d = true
    · rw [collapseAux_cons_space_true hd]; exact ih
    · rw [collapseAux_cons_nonspace true (by simpa using hd)]
      simpa [headSpace] using hd

lemma noAdjSpaces_collapseAux : ∀ (b : Bool) (l : List Char),
    noAdjSpaces (collapseAux b l) = true := by
  intro b l
  induction l generalizing b with
  | nil => rw [collapseAux_nil]; rfl
  | cons d rest ih =>
    by_cases hd : pyIsSpace d = true
    · cases b with
      | true => rw [collapseAux_cons_space_true hd]; exact ih true
      | false =>
        rw [collapseAux_cons_space_false hd, noAdjSpaces_cons,
          headSpace_collapseAux_true rest]
        simpa using ih true
    · have hd' : pyIsSpace d = false := by simpa using hd
      rw [collapseAux_cons_nonspace b hd', noAdjSpaces_cons, hd']
      simpa using ih false

lemma headSpace_dropWhile (l : List Char) :
    headSpace (l.dropWhile pyIsSpace) = false := by
  induction l with
  | nil => rfl
  | cons d rest ih =>
    by_cases hd : pyIsSpace d = true
    · rw [List.dropWhile_cons_of_pos hd]; exact ih
    · rw [List.dropWhile_cons_of_neg hd]
      simpa [headSpace] using hd

lemma mem_dropWhile {c : Char} {p : Char → Bool} {l : List Char}
    (h : c ∈ l.dropWhile p) : c ∈ l :=
  (List.dropWhile_sublist (p := p) (l := l)).mem h

lemma noAdjSpaces_dropWhile {l : List Char} (h : noAdjSpaces l = true) :
    noAdjSpaces (l.dropWhile pyIsSpace) = true := by
  induction l with
  | nil => exact h
  | cons d rest ih =>
    by_cases hd : pyIsSpace d = true
    · rw [List.dropWhile_cons_of_pos hd]
      exact ih (noAdjSpaces_tail h)
    · rwa [List.dropWhile_cons_of_neg hd]

lemma dropWhile_fix {l : List Char} (h : headSpace l = false) :
    l.dropWhile pyIsSpace = l := by
  cases l with
  | nil => rfl
  | cons d rest =>
    simp only [headSpace] at h
    rw [List.dropWhile_cons_of_neg (by simp [h])]

lemma mem_dropTrailingWs {c : Char} : ∀ l : List Char, c ∈ dropTrailingWs l → c ∈ l := by
  intro l
  induction l with
  | nil => intro h; cases h
  | cons d rest ih =>
    intro h
    rw [dropTrailingWs] at h
    split at h
    · cases h
    · rcases List.mem_cons.mp h with rfl | h'
      · exact List.mem_cons_self _ _
      · exact List.mem_cons_of_mem _ (ih h')

lemma dropTrailingWs_head? : ∀ l : List Char,
    dropTrailingWs l = [] ∨ (dropTrailingWs l).head? = l.head? := by
  intro l
  cases l with
  | nil => exact Or.inl rfl
  | cons d rest =>
    rw [dropTrailingWs]
    split
    · exact Or.inl rfl
    · exact Or.inr rfl

lemma headSpace_eq_of_head? {a b : List Char} (h : a.head? = b.head?) :
    headSpace a = headSpace b := by
  cases a <;> cases b <;> simp_all [headSpace, List.head?]

lemma lastSpace_cons (c : Char) {l : List Char} (h : l ≠ []) :
    lastSpace (c :: l) = lastSpace l := by
  cases l with
  | nil => exact absurd rfl h
  | cons d rest => rfl

lemma noAdjSpaces_dropTrailingWs : ∀ l : List Char, noAdjSpaces l = true →
    noAdjSpaces (dropTrailingWs l) = true := by
  intro l
  induction l with
  | nil => intro h; exact h
  | cons d rest ih =>
    intro h
    rw [dropTrailingWs]
    split
    · rfl
    · rw [noAdjSpaces_cons]
      have hrest := ih (noAdjSpaces_tail h)
      rw [hrest]
      have hh : headSpace (dropTrailingWs rest) = false ∨ pyIsSpace d = false := by
        rcases dropTrailingWs_head? rest with hnil | hhead
        · exact Or.inl (by rw [hnil]; rfl)
        · rw [headSpace_eq_of_head? hhead]
          rw [noAdjSpaces_cons] at h
          simp only [Bool.and_eq_true, Bool.not_eq_true', Bool.and_eq_false_iff] at h
          rcases h.1 with h1 | h1
          · exact Or.inr h1
          · exact Or.inl h1
      rcases hh with hh | hh <;> simp [hh]

lemma lastSpace_dropTrailingWs : ∀ l : List Char,
    lastSpace (dropTrailingWs l) = false := by
  intro l
  induction l with
  | nil => rfl
  | cons d rest ih =>
    rw [dropTrailingWs]
    split
    · rfl
    · rename_i hcond
      by_cases hr : dropTrailingWs rest = []
      · rw [hr]
        simp only [hr, true_and] at hcond
        simpa [lastSpace] using hcond
      · rw [lastSpace_cons d hr]
        exact ih

lemma dropTrailingWs_fix : ∀ l : List Char, lastSpace l = false → dropTrailingWs l = l := by
  intro l
  induction l with
  | nil => intro _; rfl
  | cons d rest ih =>
    intro h
    rw [dropTrailingWs]
    cases hrest : rest with
    | nil =>
      simp only [hrest] at h ⊢
      simp only [lastSpace] at h
      simp [dropTrailingWs, h]
    | cons e rest2 =>
      rw [← hrest]
      have hne : rest ≠ [] := by rw [hrest]; simp
      rw [lastSpace_cons d hne] at h
      have := ih h
      rw [this]
      simp [hne]

lemma collapseAux_fix : ∀ l : List Char, spacesBlank l = true → noAdjSpaces l = true →
    collapseAux false l = l ∧ (headSpace l = false → collapseAux true l = l) := by
  intro l
  induction l with
  | nil => intro _ _; exact ⟨rfl, fun _ => rfl⟩
  | cons d rest ih =>
    intro hb hn
    have hbrest : spacesBlank rest = true := by
      simp only [spacesBlank, List.all_cons, Bool.and_eq_true] at hb
      exact hb.2
    have hnrest : noAdjSpaces rest = true := noAdjSpaces_tail hn
    have ihr := ih hbrest hnrest
    by_cases hd : pyIsSpace d = true
    · have hdblank : d = ' ' := by
        simp only [spacesBlank, List.all_cons, Bool.and_eq_true] at hb
        rcases hb.1 with h1
        simp only [hd, Bool.not_true, Bool.false_or, decide_eq_true_eq] at h1
        exact h1
      have hhrest : headSpace rest = false := by
        rw [noAdjSpaces_cons] at hn
        simp only [Bool.and_eq_true, Bool.not_eq_true', Bool.and_eq_false_iff] at hn
        rcases hn.1 with h1 | h1
        · exact absurd hd (by simp [h1])
        · exact h1
      constructor
      · rw [collapseAux_cons_space_false hd, ihr.2 hhrest, hdblank]
      · intro hh
        simp [headSpace, hd] at hh
    · have hd' : pyIsSpace d = false := by simpa using hd
      constructor
      · rw [collapseAux_cons_nonspace false hd', ihr.1]
      · intro _
        rw [collapseAux_cons_nonspace true hd', ihr.1]

lemma pyStrip_collapseWs_props (l0 : List Char) :
    spacesBlank (pyStrip (collapseWs l0)) = true ∧
    noAdjSpaces (pyStrip (collapseWs l0)) = true ∧
    headSpace (pyStrip (collapseWs l0)) = false ∧
    lastSpace (pyStrip (collapseWs l0)) = false ∧
    ∀ c ∈ pyStrip (collapseWs l0), c = ' ' ∨ c ∈ l0 := by
  have hmem : ∀ c ∈ pyStrip (collapseWs l0), c = ' ' ∨ c ∈ l0 := by
    intro c hc
    exact mem_collapseAux false l0 (mem_dropWhile (mem_dropTrailingWs _ hc))
  have hblank : spacesBlank (pyStrip (collapseWs l0)) = true := by
    simp only [spacesBlank, List.all_eq_true]
    intro c hc
    have hc' := mem_dropWhile (mem_dropTrailingWs _ hc)
    have hall := spacesBlank_collapseAux false l0
    simp only [spacesBlank, List.all_eq_true] at hall
    exact hall c hc'
  have hnadj : noAdjSpaces (pyStrip (collapseWs l0)) = true :=
    noAdjSpaces_dropTrailingWs _ (noAdjSpaces_dropWhile (noAdjSpaces_collapseAux false l0))
  have hhead : headSpace (pyStrip (collapseWs l0)) = false := by
    rcases dropTrailingWs_head? ((collapseWs l0).dropWhile pyIsSpace) with hnil | hhead
    · rw [pyStrip, hnil]; rfl
    · rw [pyStrip, headSpace_eq_of_head? hhead]
      exact headSpace_dropWhile _
  exact ⟨hblank, hnadj, hhead, lastSpace_dropTrailingWs _, hmem⟩

lemma pyStrip_collapseWs_fix {l : List Char} (hb : spacesBlank l = true)
    (hn : noAdjSpaces l = true) (hh : headSpace l = false) (hl : lastSpace l = false) :
    collapseWs l = l ∧ pyStrip l = l := by
  refine ⟨(collapseAux_fix l hb hn).1, ?_⟩
  rw [pyStrip, dropWhile_fix hh]
  exact dropTrailingWs_fix l hl

lemma normalizeIsbn_idem (s : String) : normalizeIsbn (normalizeIsbn s) = normalizeIsbn s := by
  by_cases hs : s = ""
  · simp [normalizeIsbn, hs]
  · have hinner : normalizeIsbn s =
        String.mk ((s.data.filter (fun c => !(c = '-' || pyIsSpace c))).map pyToUpper) := by
      rw [normalizeIsbn, if_neg hs]
    rw [hinner]
    by_cases hrr :
      String.mk ((s.data.filter (fun c => !(c = '-' || pyIsSpace c))).map pyToUpper) = ""
    · rw [normalizeIsbn, if_pos hrr]
      exact hrr.symm
    · rw [normalizeIsbn, if_neg hrr]
      congr 1
      rw [show (String.mk ((s.data.filter (fun c => !(c = '-' || pyIsSpace c))).map
        pyToUpper)).data = (s.data.filter (fun c => !(c = '-' || pyIsSpace c))).map pyToUpper
        from rfl]
      have hfil : ((s.data.filter (fun c => !(c = '-' || pyIsSpace c))).map pyToUpper).filter
          (fun c => !(c = '-' || pyIsSpace c)) =
          (s.data.filter (fun c => !(c = '-' || pyIsSpace c))).map pyToUpper := by
        rw [List.filter_eq_self]
        intro c hc
        rcases List.mem_map.mp hc with ⟨c0, hc0, rfl⟩
        exact pyToUpper_keeps_non_dash_space (List.mem_filter.mp hc0).2
      rw [hfil]
      apply map_fix_of_forall
      intro c hc
      rcases List.mem_map.mp hc with ⟨c0, _, rfl⟩
      exact pyToUpper_idem c0

lemma findYearRun_shape : ∀ (l y : List Char), findYearRun l = some y →
    ∃ c1 c2 c3 c4, y = [c1, c2, c3, c4] ∧
      (c1.isDigit && c2.isDigit && c3.isDigit && c4.isDigit) = true := by
  intro l
  induction l with
  | nil => intro y h; rw [show findYearRun [] = none from rfl] at h; cases h
  | cons c1 t ih =>
    intro y h
    rcases t with _ | ⟨c2, t2⟩
    · rw [show findYearRun [c1] = none from rfl] at h; cases h
    rcases t2 with _ | ⟨c3, t3⟩
    · rw [show findYearRun [c1, c2] = none from rfl] at h; cases h
    rcases t3 with _ | ⟨c4, t4⟩
    · rw [show findYearRun [c1, c2, c3] = none from rfl] at h; cases h
    rw [findYearRun] at h
    split at h
    · rename_i hdig
      injection h with h2
      exact ⟨c1, c2, c3, c4, h2.symm, hdig⟩
    · exact ih y h

lemma normalizeDate_idem (s : String) : normalizeDate (normalizeDate s) = normalizeDate s := by
  by_cases hs : s = ""
  · simp [normalizeDate, hs]
  · cases hy : findYearRun s.data with
    | none =>
      have hinner : normalizeDate s = "" := by rw [normalizeDate, if_neg hs, hy]
      rw [hinner]
      rfl
    | some y =>
      rcases findYearRun_shape s.data y hy with ⟨c1, c2, c3, c4, rfl, hdig⟩
      have hinner : normalizeDate s = String.mk [c1, c2, c3, c4] := by
        rw [normalizeDate, if_neg hs, hy]
      rw [hinner]
      have hne : String.mk [c1, c2, c3, c4] ≠ "" := by
        intro hcon
        have hdat : ([c1, c2, c3, c4] : List Char) = [] := congrArg String.data hcon
        cases hdat
      rw [normalizeDate, if_neg hne]
      rw [show (String.mk [c1, c2, c3, c4]).data = [c1, c2, c3, c4] from rfl]
      rw [findYearRun, if_pos hdig]

lemma author_core_no_comma (l0 : List Char) :
    (pyStrip (collapseWs (l0.filter authorKeepChar))).contains ',' = false := by
  have hmem := (pyStrip_collapseWs_props (l0.filter authorKeepChar)).2.2.2.2
  have hnot : ',' ∉ pyStrip (collapseWs (l0.filter authorKeepChar)) := by
    intro hc
    rcases hmem ',' hc with hsp | hfil
    · cases hsp
    · have := (List.mem_filter.mp hfil).2
      simp [authorKeepChar, pyIsWordChar, pyIsSpace] at this
  simpa using hnot

lemma normalizeAuthor_core (s : String) (hs : s ≠ "") :
    normalizeAuthor s =
      String.mk (pyStrip (collapseWs ((s.data.map pyToLower).filter authorKeepChar))) := by
  rw [normalizeAuthor, if_neg hs]
  simp only [nfkd]
  rw [author_core_no_comma (s.data.map pyToLower)]
  simp

lemma normalizeAuthor_idem (s : String) :
    normalizeAuthor (normalizeAuthor s) = normalizeAuthor s := by
  by_cases hs : s = ""
  · simp [normalizeAuthor, hs]
  · rw [normalizeAuthor_core s hs]
    by_cases hrr :
      String.mk (pyStrip (collapseWs ((s.data.map pyToLower).filter authorKeepChar))) = ""
    · rw [hrr]
      simp [normalizeAuthor]
    · rw [normalizeAuthor_core _ hrr]
      congr 1
      obtain ⟨hblank, hnadj, hhead, hlast, hmem⟩ :=
        pyStrip_collapseWs_props ((s.data.map pyToLower).filter authorKeepChar)
      rw [show (String.mk (pyStrip (collapseWs
        ((s.data.map pyToLower).filter authorKeepChar)))).data =
        pyStrip (collapseWs ((s.data.map pyToLower).filter authorKeepChar)) from rfl]
      have hlow : (pyStrip (collapseWs
          ((s.data.map pyToLower).filter authorKeepChar))).map pyToLower =
          pyStrip (collapseWs ((s.data.map pyToLower).filter authorKeepChar)) := by
        apply map_fix_of_forall
        intro c hc
        rcases hmem c hc with rfl | hc0
        · rfl
        · rcases List.mem_map.mp (List.mem_filter.mp hc0).1 with ⟨c0, _, rfl⟩
          exact pyToLower_idem c0
      rw [hlow]
      have hkeep : (pyStrip (collapseWs
          ((s.data.map pyToLower).filter authorKeepChar))).filter authorKeepChar =
          pyStrip (collapseWs ((s.data.map pyToLower).filter authorKeepChar)) := by
        rw [List.filter_eq_self]
        intro c hc
        rcases hmem c hc with rfl | hc0
        · decide
        · exact (List.mem_filter.mp hc0).2
      rw [hkeep]
      have hfix := pyStrip_collapseWs_fix hblank hnadj hhead hlast
      rw [hfix.1, hfix.2]

/-- Claim C4 counterexample: title normalization is not idempotent, because
each application strips one leading article: the title made of the words
the, an and x normalizes to the words an and x, which normalizes again to
the single word x. -/
theorem normalize_title_not_idempotent :
    normalizeTitle (normalizeTitle "the an x") ≠ normalizeTitle "the an x" := by decide

/-- Claim C4 as amended: the isbn, author and date normalization functions are
idempotent, but the title normalization function is not (its
leading-article stripping removes one article per application). -/
theorem normalization_idempotence :
    (∀ s, normalizeIsbn (normalizeIsbn s) = normalizeIsbn s) ∧
    (∀ s, normalizeAuthor (normalizeAuthor s) = normalizeAuthor s) ∧
    (∀ s, normalizeDate (normalizeDate s) = normalizeDate s) ∧
    ¬ (∀ s, normalizeTitle (normalizeTitle s) = normalizeTitle s) := by
  refine ⟨normalizeIsbn_idem, normalizeAuthor_idem, normalizeDate_idem, fun hall => ?_⟩
  exact absurd (hall "the an x") (by decide)
